import Mathlib

/-!
Verification of the job-scraper program (src/main.py).

The program scrapes a job board, compares the scraped record set against the
previous snapshot stored in a tab-delimited file, sends the resulting report
as a text message, and finally overwrites the snapshot.

This file shallowly embeds the program:
  - records are `List String`, record sets are `List (List String)`;
  - `compare` (src/main.py lines 99-127) is embedded as an `Option`-valued
    function: `none` models the Python `IndexError` raised by the unchecked
    field accesses `new_pos[0]`, `new_pos[1]`, `new_pos[2]`, `old_pos[0]`;
  - the snapshot store (`read_csv` / `write_csv`, lines 49-73) is embedded as
    functions between record sets and file contents, modelling the Python
    `csv` module with delimiter `'\t'` and minimal quoting;
  - the extractor `get_positions` (lines 27-46) is embedded over an abstract
    document given as its list of hyperlink elements;
  - the top-level script (lines 166-177) is embedded as a state-passing
    function over an environment of fallible external calls.
-/

set_option linter.unusedVariables false

namespace JobScraper

/-- Python `sep.join(l)`: joins a list of strings with a separator. -/
def pyJoin (sep : String) : List String → String
  | [] => ""
  | [a] => a
  | a :: b :: t => a ++ sep ++ pyJoin sep (b :: t)

/-- Concatenation of a list of blocks of report lines, in order.  This is the
order in which `compare` appends entries to its `changes` list. -/
def catLists : List (List String) → List String
  | [] => []
  | b :: bs => b ++ catLists bs

/-- Runs an `Option`-valued function over a list, failing as soon as one
element fails.  This models a Python `for` loop whose body may raise. -/
def mapOpt {α β : Type} (f : α → Option β) : List α → Option (List β)
  | [] => some []
  | x :: xs =>
    match f x with
    | none => none
    | some y =>
      match mapOpt f xs with
      | none => none
      | some ys => some (y :: ys)

/-- The entries appended to `changes` for one record `r` of `new` by the first
loop of `compare` (src/main.py lines 113-120).  `none` models the
`IndexError` raised when `r` is empty (`new_pos[0]`) or when a
non-status record has fewer than three fields (`new_pos[1]`, `new_pos[2]`). -/
def procNew (old : List (List String)) (r : List String) : Option (List String) :=
  if r ∈ old then some []
  else
    match r with
    | [] => none
    | f0 :: rest =>
      if f0 = "Status:" then some [pyJoin " " (f0 :: rest)]
      else
        match rest with
        | [] => none
        | [_] => none
        | f1 :: f2 :: _ => some ["Added: " ++ f0, "Location: " ++ f1, "Link: " ++ f2, "\n"]

/-- The entries appended to `changes` for one record `r` of `old` by the second
loop of `compare` (src/main.py lines 122-126).  `none` models the
`IndexError` raised by `old_pos[0]` when `r` is empty. -/
def procOld (new : List (List String)) (r : List String) : Option (List String) :=
  if r ∈ new then some []
  else
    match r with
    | [] => none
    | f0 :: _ => some ["Removed: " ++ f0]

/-- The full `changes` list built by `compare` (src/main.py lines 109-126):
the preamble entry `'New positions: \n'`, the `'No changes'` entry exactly
when `new == old`, then the first-loop entries, then the second-loop
entries.  `none` models an `IndexError` in either loop. -/
def compareLines (new old : List (List String)) : Option (List String) :=
  match mapOpt (procNew old) new with
  | none => none
  | some bs1 =>
    match mapOpt (procOld new) old with
    | none => none
    | some bs2 =>
      some ((if new = old then ["New positions: \n", "No changes"]
             else ["New positions: \n"]) ++ catLists bs1 ++ catLists bs2)

/-- Embedding of `compare` (src/main.py lines 99-127): the report is
`'\n'.join(changes)`; `none` models an uncaught `IndexError`. -/
def compare (new old : List (List String)) : Option String :=
  (compareLines new old).map (pyJoin "\n")

/-- Proposition that the string `s` starts with the string `p`. -/
def strStarts (p s : String) : Prop := s.data.take p.data.length = p.data

instance (p s : String) : Decidable (strStarts p s) := by
  unfold strStarts; infer_instance

/-- Splits a character sequence at newline characters (separator semantics:
a trailing newline yields a final empty line). -/
def lineList : List Char → List (List Char)
  | [] => [[]]
  | c :: t =>
    if c = '\n' then [] :: lineList t
    else
      match lineList t with
      | [] => [[c]]
      | h :: r => (c :: h) :: r

/-- The lines of a string, splitting at newline characters. -/
def strLines (s : String) : List String := (lineList s.data).map fun l => String.mk l

/-! ### Snapshot store: embedding of write_csv / read_csv (src/main.py lines 49-73)

The source delegates to the Python `csv` module with delimiter `'\t'` and the
default dialect (minimal quoting, quote character `'"'`, doubled-quote
escaping).  The file is opened in text mode, so the `'\r\n'` terminators the
writer emits are read back as `'\n'`; the embedding therefore works with
`'\n'`-terminated rows.  `write_csv` maps a record set to the file contents
written; `read_csv` maps file contents to the record set parsed. -/

/-- Doubling of quote characters, as the csv writer escapes them inside a
quoted field. -/
def escapeQuotes : List Char → List Char
  | [] => []
  | c :: t => if c = '"' then '"' :: '"' :: escapeQuotes t else c :: escapeQuotes t

/-- Minimal-quoting test of the csv writer: a field is quoted when it
contains the delimiter, a line-terminator character, or the quote char. -/
def needsQuoting (f : String) : Bool :=
  f.data.any fun c => c = '\t' || c = '\n' || c = '\r' || c = '"'

/-- Serialization of one field by the csv writer. -/
def encodeField (f : String) : List Char :=
  if needsQuoting f then '"' :: (escapeQuotes f.data ++ ['"']) else f.data

/-- Fields of one record joined by the tab delimiter. -/
def joinFields : List String → List Char
  | [] => []
  | [f] => encodeField f
  | f :: g :: fs => encodeField f ++ '\t' :: joinFields (g :: fs)

/-- Serialization of one record.  A record holding exactly one empty field is
written as a quoted empty field, as the csv writer does to distinguish it
from a blank line. -/
def encodeRow (r : List String) : List Char :=
  if r = [""] then ['"', '"'] else joinFields r

/-- Serialization of a record set: one record per line. -/
def writeRows : List (List String) → List Char
  | [] => []
  | r :: rs => encodeRow r ++ '\n' :: writeRows rs

/-- Embedding of `write_csv` (src/main.py lines 63-73), mapping the record
set to the contents written to the file. -/
def write_csv (data : List (List String)) : String := String.mk (writeRows data)

/-- Parser mode of the csv reader state machine. -/
inductive CsvMode
  | startRecord
  | startField
  | inField
  | inQuote
  | postQuote
deriving DecidableEq

/-- State of the csv reader: rows finished so far, fields of the current
record, characters of the current field, and the parser mode. -/
structure CsvSt where
  rows : List (List String)
  cur : List String
  field : List Char
  mode : CsvMode
deriving DecidableEq

/-- One step of the csv reader on one character (non-strict dialect,
delimiter `'\t'`, quote `'"'`, doubled-quote escaping, blank line = empty
record). -/
def csvStep (st : CsvSt) (c : Char) : CsvSt :=
  match st.mode with
  | .startRecord =>
    if c = '\n' then ⟨st.rows ++ [[]], [], [], .startRecord⟩
    else if c = '"' then ⟨st.rows, st.cur, [], .inQuote⟩
    else if c = '\t' then ⟨st.rows, st.cur ++ [""], [], .startField⟩
    else ⟨st.rows, st.cur, [c], .inField⟩
  | .startField =>
    if c = '\n' then ⟨st.rows ++ [st.cur ++ [""]], [], [], .startRecord⟩
    else if c = '"' then ⟨st.rows, st.cur, [], .inQuote⟩
    else if c = '\t' then ⟨st.rows, st.cur ++ [""], [], .startField⟩
    else ⟨st.rows, st.cur, [c], .inField⟩
  | .inField =>
    if c = '\n' then ⟨st.rows ++ [st.cur ++ [String.mk st.field]], [], [], .startRecord⟩
    else if c = '\t' then ⟨st.rows, st.cur ++ [String.mk st.field], [], .startField⟩
    else ⟨st.rows, st.cur, st.field ++ [c], .inField⟩
  | .inQuote =>
    if c = '"' then ⟨st.rows, st.cur, st.field, .postQuote⟩
    else ⟨st.rows, st.cur, st.field ++ [c], .inQuote⟩
  | .postQuote =>
    if c = '"' then ⟨st.rows, st.cur, st.field ++ ['"'], .inQuote⟩
    else if c = '\t' then ⟨st.rows, st.cur ++ [String.mk st.field], [], .startField⟩
    else if c = '\n' then ⟨st.rows ++ [st.cur ++ [String.mk st.field]], [], [], .startRecord⟩
    else ⟨st.rows, st.cur, st.field ++ [c], .inField⟩

/-- End-of-input handling of the csv reader: a record not terminated by a
newline is still produced. -/
def csvFinish (st : CsvSt) : List (List String) :=
  match st.mode with
  | .startRecord => st.rows
  | .startField => st.rows ++ [st.cur ++ [""]]
  | _ => st.rows ++ [st.cur ++ [String.mk st.field]]

/-- Embedding of `read_csv` (src/main.py lines 49-60), mapping the file
contents to the parsed record set. -/
def read_csv (content : String) : List (List String) :=
  csvFinish (content.data.foldl csvStep ⟨[], [], [], .startRecord⟩)

/-- Fields with no tab and no line-terminator character (carriage return or
line feed), the regime of the round-trip claim. -/
def cleanField (f : String) : Prop := ∀ c ∈ f.data, c ≠ '\t' ∧ c ≠ '\n' ∧ c ≠ '\r'

instance (f : String) : Decidable (cleanField f) := by
  unfold cleanField; infer_instance

/-! ### Extractor: embedding of get_positions and scrape_unops
(src/main.py lines 27-46 and 130-163)

The BeautifulSoup document is abstracted as the list of its hyperlink
elements in document traversal order; each element carries its visible text,
the text of the span under its parent (absent when the lookup
`link.parent.span` would fail), and its href attribute.  The portal page is
abstracted as the list of texts of its status-styled table cells. -/

/-- Boolean test that `p` is an initial segment of `l`. -/
def leadsWith : List Char → List Char → Bool
  | [], _ => true
  | _ :: _, [] => false
  | a :: as, b :: bs => a == b && leadsWith as bs

/-- Boolean test that `sub` occurs contiguously inside `l`. -/
def containsSeq (sub : List Char) : List Char → Bool
  | [] => sub.isEmpty
  | c :: t => leadsWith sub (c :: t) || containsSeq sub t

/-- Python `sub in s` on strings: case-sensitive substring test. -/
def pyInStr (sub s : String) : Bool := containsSeq sub.data s.data

/-- Python `s.strip()`: removes whitespace from both ends. -/
def pyStrip (s : String) : String :=
  String.mk (((s.data.dropWhile Char.isWhitespace).reverse.dropWhile
    Char.isWhitespace).reverse)

/-- Python `os.path.dirname`: everything before the final slash; trailing
slashes of the result are removed unless it consists only of slashes. -/
def dirname (s : String) : String :=
  let rest := s.data.reverse.dropWhile fun c => c ≠ '/'
  if rest = [] then ""
  else if rest.all fun c => c = '/' then String.mk rest.reverse
  else String.mk ((rest.dropWhile fun c => c = '/').reverse)

/-- A hyperlink element of the parsed page. -/
structure LinkElem where
  text : String
  parentSpanText : Option String
  href : String

/-- The record built for one selected link (src/main.py lines 42-44): link
text, sibling span text, base url concatenated with the href, all three
whitespace-stripped.  `none` models the `AttributeError` raised when the
parent has no span. -/
def extractInfo (base : String) (l : LinkElem) : Option (List String) :=
  match l.parentSpanText with
  | none => none
  | some sp => some [pyStrip l.text, pyStrip sp, pyStrip (base ++ l.href)]

/-- Embedding of `get_positions` (src/main.py lines 27-46): header record
first, then one record per hyperlink whose text contains the substring
`"Intern"`, in document order. -/
def get_positions (url : String) (links : List LinkElem) :
    Option (List (List String)) :=
  match mapOpt (extractInfo (dirname url)) (links.filter fun l => pyInStr "Intern" l.text) with
  | none => none
  | some rows => some (["position", "location", "link"] :: rows)

/-- The status record built by `scrape_unops` (src/main.py lines 161-163)
from the texts of the status-styled table cells: the marker token followed
by each cell text with all non-word characters removed. -/
def scrape_unops_record (cells : List String) : List String :=
  "Status:" :: cells.map fun s => String.mk (s.data.filter fun c => c.isAlphanum || c = '_')

/-- The record set assembled by the main script (src/main.py lines 172-173):
the extracted listing records with the status record appended last. -/
def buildNew (url : String) (links : List LinkElem) (cells : List String) :
    Option (List (List String)) :=
  (get_positions url links).map fun ps => ps ++ [scrape_unops_record cells]

/-! ### The main script (src/main.py lines 166-177)

The run is embedded as a function of an environment holding the outcomes of
the external calls (network fetch, browser scrape, message send) and of a
state holding the snapshot file contents (`none` = file absent) and the
list of messages sent so far.  Each failure aborts the run, returning the
state unchanged. -/

/-- A fatal failure of one step of the run. -/
inductive ScrapeErr
  | network
  | extract
  | missingFile
  | indexError
  | sendFail
deriving DecidableEq

/-- Outcomes of the external calls of one run. -/
structure Env where
  fetched : Except ScrapeErr (List LinkElem)
  portalCells : Except ScrapeErr (List String)
  send : String → Except ScrapeErr String

/-- The world state of the script: the snapshot file and the messages sent. -/
structure ScriptState where
  snapshot : Option String
  sent : List String
deriving DecidableEq

/-- The url of the public job board (src/main.py line 166). -/
def fetch_url : String := "https://boards.greenhouse.io/fetchrewards"

/-- The url of the gated portal login page (src/main.py line 167). -/
def unops_url : String :=
  "https://jobs.unops.org/Pages/Account/Login.aspx?ReturnUrl=%2fpages%2fuser%2fapplications.aspx"

/-- Embedding of the main script (src/main.py lines 171-177), in source
order: fetch, extract, portal scrape, snapshot load, compare, send, and
only then the snapshot write. -/
def runScript (env : Env) (st : ScriptState) :
    Except ScrapeErr String × ScriptState :=
  match env.fetched with
  | .error e => (.error e, st)
  | .ok links =>
    match get_positions fetch_url links with
    | none => (.error .extract, st)
    | some positions =>
      match env.portalCells with
      | .error e => (.error e, st)
      | .ok cells =>
        let new := positions ++ [scrape_unops_record cells]
        match st.snapshot with
        | none => (.error .missingFile, st)
        | some content =>
          match compare new (read_csv content) with
          | none => (.error .indexError, st)
          | some msg =>
            match env.send msg with
            | .error e => (.error e, st)
            | .ok sid =>
              (.ok sid, ⟨some (write_csv new), st.sent ++ [msg]⟩)

-- Sanity checks of the embedding against the observable behaviour of
-- src/main.py on small inputs (scenarios of spec.md §8).
example : compare [["h"]] [["h"]] = some "New positions: \n\nNo changes" := by decide
example : compare [["h"], ["A", "L", "K"]] [["h"]] =
    some "New positions: \n\nAdded: A\nLocation: L\nLink: K\n\n" := by decide
example : compare [["h"]] [["h"], ["B", "L", "K"]] =
    some "New positions: \n\nRemoved: B" := by decide
example : compare [["Status:", "Pending"]] [] =
    some "New positions: \n\nStatus: Pending" := by decide
example : compare [[]] [] = none := by decide
example : compare [["a"]] [] = none := by decide
example : compare [["a", "b"]] [] = none := by decide
example : compare [] [[]] = none := by decide
example : compare [[], ["x"]] [[], ["y"]] = none := by decide

-- Sanity checks of the csv embedding against the behaviour of the Python
-- csv module (delimiter tab, minimal quoting) used by the source.
example : write_csv [["a", "b"], ["c"]] = "a\tb\nc\n" := by decide
example : read_csv "a\tb\nc\n" = [["a", "b"], ["c"]] := by decide
example : write_csv [[]] = "\n" := by decide
example : read_csv "\n" = [[]] := by decide
example : write_csv [[""]] = "\"\"\n" := by decide
example : read_csv "\"\"\n" = [[""]] := by decide
example : write_csv [["q\"x"]] = "\"q\"\"x\"\n" := by decide
example : read_csv "\"q\"\"x\"\n" = [["q\"x"]] := by decide
example : read_csv "" = [] := by decide
example : read_csv "a" = [["a"]] := by decide
example : read_csv (write_csv [["", "d"], ["Status:", "Pending"]]) =
    [["", "d"], ["Status:", "Pending"]] := by decide

-- Sanity checks of the extractor embedding.
example : dirname "https://boards.greenhouse.io/fetchrewards" =
    "https://boards.greenhouse.io" := by decide
example : dirname "abc" = "" := by decide
example : dirname "/abc" = "/" := by decide
example : pyStrip "  Software Intern " = "Software Intern" := by decide
example : pyInStr "Intern" "Internal Tools" = true := by decide
example : pyInStr "Intern" "internship" = false := by decide
example : scrape_unops_record ["Under Review."] = ["Status:", "UnderReview"] := by decide
example : get_positions "https://a/b" [⟨"Senior Chef", some "X", "/c"⟩] =
    some [["position", "location", "link"]] := by decide
example : get_positions "https://a/b" [⟨"An Intern", none, "/c"⟩] = none := by decide

/-! ### Helper lemmas about the report-building functions -/

theorem pyJoin_cons (sep a : String) (l : List String) :
    ∃ t : String, pyJoin sep (a :: l) = a ++ t := by
  cases l with
  | nil => exact ⟨"", by simp [pyJoin]⟩
  | cons b t => exact ⟨sep ++ pyJoin sep (b :: t), by simp [pyJoin, String.append_assoc]⟩

theorem append_ne {a b : String} {c d : Char} {ta tb : List Char}
    (hA : a.data = c :: ta) (hB : b.data = d :: tb) (h : c ≠ d) (x : String) :
    a ++ x ≠ b := by
  intro he
  have h2 := congrArg String.data he
  rw [String.data_append, hA, hB] at h2
  simp only [List.cons_append, List.cons.injEq] at h2
  exact h h2.1

theorem strStarts_append_ne {p a : String} {c d : Char} {tp ta : List Char}
    (hp : p.data = c :: tp) (ha : a.data = d :: ta) (h : c ≠ d) (x : String) :
    ¬ strStarts p (a ++ x) := by
  intro hs
  unfold strStarts at hs
  rw [String.data_append, hp, ha] at hs
  simp only [List.cons_append, List.length_cons, List.take_succ_cons,
    List.cons.injEq] at hs
  exact h hs.1.symm

theorem mapOpt_eq_none {α β : Type} {f : α → Option β} {x : α} {xs : List α}
    (hx : x ∈ xs) (hfx : f x = none) : mapOpt f xs = none := by
  induction xs with
  | nil => cases hx
  | cons y ys ih =>
    rcases List.mem_cons.mp hx with h | h
    · subst h; simp [mapOpt, hfx]
    · unfold mapOpt
      cases hfy : f y with
      | none => rfl
      | some b => rw [ih h]

theorem mapOpt_eq_map {α β : Type} {f : α → Option β} {g : α → β} {xs : List α}
    (h : ∀ x ∈ xs, f x = some (g x)) : mapOpt f xs = some (xs.map g) := by
  induction xs with
  | nil => rfl
  | cons y ys ih =>
    unfold mapOpt
    rw [h y (List.mem_cons_self y ys), ih fun x hx => h x (List.mem_cons_of_mem y hx)]
    rfl

theorem mapOpt_split {α β : Type} {f : α → Option β} {x : α} {xs : List α}
    {ys : List β} (hm : mapOpt f xs = some ys) (hx : x ∈ xs) :
    ∃ b p q, f x = some b ∧ ys = p ++ b :: q := by
  induction xs generalizing ys with
  | nil => cases hx
  | cons y t ih =>
    unfold mapOpt at hm
    cases hfy : f y with
    | none => rw [hfy] at hm; cases hm
    | some b0 =>
      rw [hfy] at hm
      cases hmt : mapOpt f t with
      | none => rw [hmt] at hm; cases hm
      | some ys0 =>
        rw [hmt] at hm
        cases hm
        rcases List.mem_cons.mp hx with h | h
        · subst h; exact ⟨b0, [], ys0, hfy, rfl⟩
        · rcases ih hmt h with ⟨b, p, q, hb, hys⟩
          exact ⟨b, b0 :: p, q, hb, by simp [hys]⟩

theorem mapOpt_rev {α β : Type} {f : α → Option β} {xs : List α} {ys : List β}
    {b : β} (hm : mapOpt f xs = some ys) (hb : b ∈ ys) :
    ∃ x ∈ xs, f x = some b := by
  induction xs generalizing ys with
  | nil => cases hm; cases hb
  | cons y t ih =>
    unfold mapOpt at hm
    cases hfy : f y with
    | none => rw [hfy] at hm; cases hm
    | some b0 =>
      rw [hfy] at hm
      cases hmt : mapOpt f t with
      | none => rw [hmt] at hm; cases hm
      | some ys0 =>
        rw [hmt] at hm
        cases hm
        rcases List.mem_cons.mp hb with h | h
        · subst h; exact ⟨y, List.mem_cons_self y t, hfy⟩
        · rcases ih hmt h with ⟨x, hx, hfx⟩
          exact ⟨x, List.mem_cons_of_mem y hx, hfx⟩

theorem mapOpt_isSome {α β : Type} {f : α → Option β} {xs : List α}
    (h : ∀ x ∈ xs, (f x).isSome) : (mapOpt f xs).isSome := by
  induction xs with
  | nil => rfl
  | cons y t ih =>
    have h1 := h y (List.mem_cons_self y t)
    have h2 := ih fun x hx => h x (List.mem_cons_of_mem y hx)
    unfold mapOpt
    cases hfy : f y with
    | none => rw [hfy] at h1; simp at h1
    | some b =>
      cases hmt : mapOpt f t with
      | none => rw [hmt] at h2; simp at h2
      | some ys => rfl

theorem catLists_append (l1 l2 : List (List String)) :
    catLists (l1 ++ l2) = catLists l1 ++ catLists l2 := by
  induction l1 with
  | nil => rfl
  | cons b bs ih => simp [catLists, ih]

theorem mem_catLists {l : List (List String)} {b : List String} {x : String}
    (hb : b ∈ l) (hx : x ∈ b) : x ∈ catLists l := by
  induction l with
  | nil => cases hb
  | cons c cs ih =>
    rcases List.mem_cons.mp hb with h | h
    · subst h; exact List.mem_append.mpr (Or.inl hx)
    · exact List.mem_append.mpr (Or.inr (ih h))

theorem catLists_rev {l : List (List String)} {x : String}
    (hx : x ∈ catLists l) : ∃ b ∈ l, x ∈ b := by
  induction l with
  | nil => cases hx
  | cons c cs ih =>
    rcases List.mem_append.mp hx with h | h
    · exact ⟨c, List.mem_cons_self c cs, h⟩
    · rcases ih h with ⟨b, hb, hxb⟩
      exact ⟨b, List.mem_cons_of_mem c hb, hxb⟩

theorem catLists_nil {l : List (List String)} (h : ∀ b ∈ l, b = []) :
    catLists l = [] := by
  induction l with
  | nil => rfl
  | cons c cs ih =>
    have hc := h c (List.mem_cons_self c cs)
    have ht := ih fun b hb => h b (List.mem_cons_of_mem c hb)
    simp [catLists, hc, ht]

theorem compareLines_eq {new old : List (List String)} {ls : List String}
    (h : compareLines new old = some ls) :
    ∃ bs1 bs2, mapOpt (procNew old) new = some bs1 ∧
      mapOpt (procOld new) old = some bs2 ∧
      ls = (if new = old then ["New positions: \n", "No changes"]
            else ["New positions: \n"]) ++ catLists bs1 ++ catLists bs2 := by
  unfold compareLines at h
  cases h1 : mapOpt (procNew old) new with
  | none => rw [h1] at h; cases h
  | some bs1 =>
    rw [h1] at h
    cases h2 : mapOpt (procOld new) old with
    | none => rw [h2] at h; cases h
    | some bs2 =>
      rw [h2] at h
      cases h
      exact ⟨bs1, bs2, rfl, rfl, rfl⟩

theorem procNew_shape {old : List (List String)} {r : List String}
    {b : List String} (h : procNew old r = some b) {l : String} (hl : l ∈ b) :
    (∃ t, l = "Status:" ++ t) ∨ (∃ t, l = "Added: " ++ t) ∨
    (∃ t, l = "Location: " ++ t) ∨ (∃ t, l = "Link: " ++ t) ∨ l = "\n" := by
  by_cases hmem : r ∈ old
  · simp [procNew, hmem] at h
    subst h
    cases hl
  · rcases r with _ | ⟨f0, rest⟩
    · simp [procNew, hmem] at h
    · by_cases hf0 : f0 = "Status:"
      · subst hf0
        simp [procNew, hmem] at h
        subst h
        rcases List.mem_singleton.mp hl with h2
        subst h2
        rcases pyJoin_cons " " "Status:" rest with ⟨t, ht⟩
        exact Or.inl ⟨t, ht⟩
      · rcases rest with _ | ⟨f1, rest2⟩
        · simp [procNew, hmem, hf0] at h
        · rcases rest2 with _ | ⟨f2, fs⟩
          · simp [procNew, hmem, hf0] at h
          · simp [procNew, hmem, hf0] at h
            subst h
            simp only [List.mem_cons, List.not_mem_nil, or_false] at hl
            rcases hl with h2 | h2 | h2 | h2
            · exact Or.inr (Or.inl ⟨f0, h2⟩)
            · exact Or.inr (Or.inr (Or.inl ⟨f1, h2⟩))
            · exact Or.inr (Or.inr (Or.inr (Or.inl ⟨f2, h2⟩)))
            · exact Or.inr (Or.inr (Or.inr (Or.inr h2)))

theorem procOld_shape {new : List (List String)} {r : List String}
    {b : List String} (h : procOld new r = some b) {l : String} (hl : l ∈ b) :
    ∃ t, l = "Removed: " ++ t := by
  by_cases hmem : r ∈ new
  · simp [procOld, hmem] at h
    subst h
    cases hl
  · rcases r with _ | ⟨f0, rest⟩
    · simp [procOld, hmem] at h
    · simp [procOld, hmem] at h
      subst h
      rcases List.mem_singleton.mp hl with h2
      exact ⟨f0, h2⟩

/-! ### Claims C1-C4, C8, C10 about compare -/

/-- Claim C1: the report built by `compare(current, previous)` contains the
literal line `"No changes"` exactly when the two record sets are equal as
ordered sequences, and when they are equal it contains no line starting with
`"Added:"` and none starting with `"Removed:"`.  Lines are the entries of
the `changes` list, which `compare` joins with newlines. -/
theorem claim_C1 : ∀ (new old : List (List String)) (ls : List String),
    compareLines new old = some ls →
    compare new old = some (pyJoin "\n" ls) ∧
    (("No changes" ∈ ls) ↔ new = old) ∧
    (new = old → ∀ l ∈ ls, ¬ strStarts "Added:" l ∧ ¬ strStarts "Removed:" l) := by
  intro new old ls h
  rcases compareLines_eq h with ⟨bs1, bs2, h1, h2, hls⟩
  refine ⟨by simp [compare, h], ⟨?_, ?_⟩, ?_⟩
  · intro hm
    by_contra hne
    rw [hls, if_neg hne] at hm
    rcases List.mem_append.mp hm with hm1 | hm2
    · rcases List.mem_append.mp hm1 with hp | hc1
      · exact absurd hp (by decide)
      · rcases catLists_rev hc1 with ⟨b, hb, hlb⟩
        rcases mapOpt_rev h1 hb with ⟨x, hx, hfx⟩
        rcases procNew_shape hfx hlb with ⟨t, ht⟩ | ⟨t, ht⟩ | ⟨t, ht⟩ | ⟨t, ht⟩ | ht
        · exact append_ne (c := 'S') (d := 'N') rfl rfl (by decide) t ht.symm
        · exact append_ne (c := 'A') (d := 'N') rfl rfl (by decide) t ht.symm
        · exact append_ne (c := 'L') (d := 'N') rfl rfl (by decide) t ht.symm
        · exact append_ne (c := 'L') (d := 'N') rfl rfl (by decide) t ht.symm
        · exact absurd ht (by decide)
    · rcases catLists_rev hm2 with ⟨b, hb, hlb⟩
      rcases mapOpt_rev h2 hb with ⟨x, hx, hfx⟩
      rcases procOld_shape hfx hlb with ⟨t, ht⟩
      exact append_ne (c := 'R') (d := 'N') rfl rfl (by decide) t ht.symm
  · intro he
    rw [hls, if_pos he]
    simp
  · intro he l hl
    have hb1 : mapOpt (procNew old) new = some (new.map fun _ => ([] : List String)) :=
      mapOpt_eq_map fun x hx => by simp [procNew, show x ∈ old from he ▸ hx]
    have hb2 : mapOpt (procOld new) old = some (old.map fun _ => ([] : List String)) :=
      mapOpt_eq_map fun x hx => by
        simp [procOld, show x ∈ new from by rw [he]; exact hx]
    have e1 : bs1 = new.map fun _ => ([] : List String) :=
      Option.some.inj (h1.symm.trans hb1)
    have e2 : bs2 = old.map fun _ => ([] : List String) :=
      Option.some.inj (h2.symm.trans hb2)
    have c1 : catLists bs1 = [] := by
      refine catLists_nil ?_
      rw [e1]
      intro b hb
      rcases List.mem_map.mp hb with ⟨x, hx, hxb⟩
      exact hxb.symm
    have c2 : catLists bs2 = [] := by
      refine catLists_nil ?_
      rw [e2]
      intro b hb
      rcases List.mem_map.mp hb with ⟨x, hx, hxb⟩
      exact hxb.symm
    rw [hls, if_pos he, c1, c2] at hl
    simp only [List.append_nil, List.mem_cons, List.not_mem_nil, or_false] at hl
    rcases hl with hl | hl <;> subst hl <;> exact ⟨by decide, by decide⟩

/-- Witness for claim C1 at current = previous = a one-record set. -/
theorem claim_C1_witness :
    compare [["a"]] [["a"]] = some (pyJoin "\n" ["New positions: \n", "No changes"]) ∧
    (("No changes" ∈ ["New positions: \n", "No changes"]) ↔
      ([["a"]] : List (List String)) = [["a"]]) ∧
    (([["a"]] : List (List String)) = [["a"]] →
      ∀ l ∈ ["New positions: \n", "No changes"],
        ¬ strStarts "Added:" l ∧ ¬ strStarts "Removed:" l) :=
  claim_C1 [["a"]] [["a"]] ["New positions: \n", "No changes"] (by decide)

/-- Claim C2: a record of `current` that is absent from `previous`, is not
status-marked, and has at least three fields produces the contiguous 4-entry
block `Added: f0`, `Location: f1`, `Link: f2`, blank entry in the report. -/
theorem claim_C2 : ∀ (new old : List (List String)) (ls : List String)
    (f0 f1 f2 : String) (fs : List String),
    compareLines new old = some ls →
    (f0 :: f1 :: f2 :: fs) ∈ new → (f0 :: f1 :: f2 :: fs) ∉ old →
    f0 ≠ "Status:" →
    ∃ p q, ls = p ++ ["Added: " ++ f0, "Location: " ++ f1, "Link: " ++ f2, "\n"] ++ q := by
  intro new old ls f0 f1 f2 fs h hmem hnot hf0
  rcases compareLines_eq h with ⟨bs1, bs2, h1, h2, hls⟩
  have hp : procNew old (f0 :: f1 :: f2 :: fs) =
      some ["Added: " ++ f0, "Location: " ++ f1, "Link: " ++ f2, "\n"] := by
    simp [procNew, hnot, hf0]
  rcases mapOpt_split h1 hmem with ⟨b, p, q, hb, hbs⟩
  rw [hp] at hb
  injection hb with hb
  subst hb
  exact ⟨(if new = old then ["New positions: \n", "No changes"]
          else ["New positions: \n"]) ++ catLists p,
         catLists q ++ catLists bs2,
         by rw [hls, hbs, catLists_append]; simp [catLists, List.append_assoc]⟩

/-- Witness for claim C2 with one added listing record. -/
theorem claim_C2_witness :
    ∃ p q, ["New positions: \n", "Added: A", "Location: L", "Link: K", "\n"] =
      p ++ ["Added: " ++ "A", "Location: " ++ "L", "Link: " ++ "K", "\n"] ++ q :=
  claim_C2 [["A", "L", "K"]] []
    ["New positions: \n", "Added: A", "Location: L", "Link: K", "\n"]
    "A" "L" "K" [] (by decide) (by decide) (by decide) (by decide)

/-- Claim C3: a record of `previous` absent from `current` produces a
`Removed:` line with its first field, and a record present in both sets
contributes no entry at all to either loop of `compare`. -/
theorem claim_C3 : ∀ (new old : List (List String)),
    (∀ (ls : List String) (f0 : String) (fs : List String),
      compareLines new old = some ls → (f0 :: fs) ∈ old → (f0 :: fs) ∉ new →
      ("Removed: " ++ f0) ∈ ls) ∧
    (∀ r : List String, r ∈ new → r ∈ old →
      procNew old r = some [] ∧ procOld new r = some []) := by
  intro new old
  constructor
  · intro ls f0 fs h hmem hnot
    rcases compareLines_eq h with ⟨bs1, bs2, h1, h2, hls⟩
    have hp : procOld new (f0 :: fs) = some ["Removed: " ++ f0] := by
      simp [procOld, hnot]
    rcases mapOpt_split h2 hmem with ⟨b, p, q, hb, hbs⟩
    rw [hp] at hb
    injection hb with hb
    subst hb
    have hmm : ("Removed: " ++ f0) ∈ catLists bs2 :=
      mem_catLists (by rw [hbs]; exact List.mem_append.mpr (Or.inr (List.mem_cons_self _ _)))
        (List.mem_singleton.mpr rfl)
    rw [hls]
    exact List.mem_append.mpr (Or.inr hmm)
  · intro r hn ho
    exact ⟨by simp [procNew, ho], by simp [procOld, hn]⟩

/-- Witness for claim C3: one removed record, and one record shared by both
sets contributing nothing. -/
theorem claim_C3_witness :
    ("Removed: " ++ "B") ∈ ["New positions: \n", "Removed: B"] ∧
    (procNew [["h"]] ["h"] = some [] ∧ procOld [["h"]] ["h"] = some []) :=
  ⟨(claim_C3 [] [["B", "x"]]).1 ["New positions: \n", "Removed: B"] "B" ["x"]
      (by decide) (by decide) (by decide),
   (claim_C3 [["h"]] [["h"]]).2 ["h"] (by decide) (by decide)⟩

/-- Claim C4: a status-marked record of `current` absent from `previous`
contributes exactly one entry, the space-join of all its fields, which is
not an `Added:` block. -/
theorem claim_C4 : ∀ (new old : List (List String)) (ls : List String)
    (rest : List String),
    compareLines new old = some ls →
    ("Status:" :: rest) ∈ new → ("Status:" :: rest) ∉ old →
    procNew old ("Status:" :: rest) = some [pyJoin " " ("Status:" :: rest)] ∧
    pyJoin " " ("Status:" :: rest) ∈ ls ∧
    ¬ strStarts "Added:" (pyJoin " " ("Status:" :: rest)) := by
  intro new old ls rest h hmem hnot
  rcases compareLines_eq h with ⟨bs1, bs2, h1, h2, hls⟩
  have hp : procNew old ("Status:" :: rest) = some [pyJoin " " ("Status:" :: rest)] := by
    simp [procNew, hnot]
  refine ⟨hp, ?_, ?_⟩
  · rcases mapOpt_split h1 hmem with ⟨b, p, q, hb, hbs⟩
    rw [hp] at hb
    injection hb with hb
    subst hb
    have hmm : pyJoin " " ("Status:" :: rest) ∈ catLists bs1 :=
      mem_catLists (by rw [hbs]; exact List.mem_append.mpr (Or.inr (List.mem_cons_self _ _)))
        (List.mem_singleton.mpr rfl)
    rw [hls]
    exact List.mem_append.mpr (Or.inl (List.mem_append.mpr (Or.inr hmm)))
  · rcases pyJoin_cons " " "Status:" rest with ⟨t, ht⟩
    rw [ht]
    exact strStarts_append_ne (c := 'A') (d := 'S') rfl rfl (by decide) t

/-- Witness for claim C4 at the status record of spec.md §8. -/
theorem claim_C4_witness :
    procNew [] ["Status:", "Pending"] = some [pyJoin " " ["Status:", "Pending"]] ∧
    pyJoin " " ["Status:", "Pending"] ∈ ["New positions: \n", "Status: Pending"] ∧
    ¬ strStarts "Added:" (pyJoin " " ["Status:", "Pending"]) :=
  claim_C4 [["Status:", "Pending"]] [] ["New positions: \n", "Status: Pending"]
    ["Pending"] (by decide) (by decide) (by decide)

/-- Claim C8: compare is deterministic in its two arguments.  The embedding
of `compare` is a pure Lean function, which is itself the verification that
the source performs no mutation of `new` or `old`: every operation of
src/main.py lines 99-127 (list membership, indexing, f-strings, join,
appending to the fresh local `changes`) is translated to a pure operation. -/
theorem claim_C8 : ∀ (a b c d : List (List String)),
    a = c → b = d → compare a b = compare c d := by
  intro a b c d h1 h2
  rw [h1, h2]

/-- Witness for claim C8. -/
theorem claim_C8_witness : compare [["x"]] [] = compare [["x"]] [] :=
  claim_C8 [["x"]] [] [["x"]] [] rfl rfl

/-- Claim C10: compare raises an out-of-range indexing error (modelled as
`none`) exactly outside the arity precondition: it fails whenever some
current-not-previous record is empty or non-status-marked with fewer than
three fields, or some previous-not-current record is empty; under the
precondition it returns normally. -/
theorem claim_C10 : ∀ (new old : List (List String)),
    (((∃ r ∈ new, r ∉ old ∧ (r = [] ∨ (r.head? ≠ some "Status:" ∧ r.length < 3))) ∨
      (∃ r ∈ old, r ∉ new ∧ r = [])) → compare new old = none) ∧
    ((∀ r ∈ new, r ∉ old → r.head? = some "Status:" ∨ 3 ≤ r.length) →
     (∀ r ∈ old, r ∉ new → r ≠ []) → (compare new old).isSome) := by
  intro new old
  constructor
  · intro hbad
    have hnone : mapOpt (procNew old) new = none ∨ mapOpt (procOld new) old = none := by
      rcases hbad with ⟨r, hr, hnot, hshape⟩ | ⟨r, hr, hnot, hnil⟩
      · left
        refine mapOpt_eq_none hr ?_
        rcases hshape with hnil | ⟨hhd, hlen⟩
        · subst hnil; simp [procNew, hnot]
        · rcases r with _ | ⟨f0, rest⟩
          · simp [procNew, hnot]
          · have hf0 : f0 ≠ "Status:" := fun he => hhd (by simp [he])
            rcases rest with _ | ⟨f1, rest2⟩
            · simp [procNew, hnot, hf0]
            · rcases rest2 with _ | ⟨f2, fs⟩
              · simp [procNew, hnot, hf0]
              · exfalso
                simp only [List.length_cons] at hlen
                omega
      · right
        refine mapOpt_eq_none hr ?_
        subst hnil
        simp [procOld, hnot]
    unfold compare compareLines
    rcases hnone with hn | hn
    · rw [hn]; rfl
    · cases hm : mapOpt (procNew old) new with
      | none => rfl
      | some bs1 => rw [hn]; rfl
  · intro hn ho
    have hs1 : (mapOpt (procNew old) new).isSome := by
      refine mapOpt_isSome fun r hr => ?_
      by_cases hmem : r ∈ old
      · simp [procNew, hmem]
      · rcases hn r hr hmem with hhd | hlen
        · rcases r with _ | ⟨f0, rest⟩
          · simp at hhd
          · simp only [List.head?_cons, Option.some.injEq] at hhd
            subst hhd
            simp [procNew, hmem]
        · rcases r with _ | ⟨f0, rest⟩
          · simp at hlen
          · rcases rest with _ | ⟨f1, rest2⟩
            · simp at hlen
            · rcases rest2 with _ | ⟨f2, fs⟩
              · simp at hlen
              · by_cases hf0 : f0 = "Status:"
                · subst hf0; simp [procNew, hmem]
                · simp [procNew, hmem, hf0]
    have hs2 : (mapOpt (procOld new) old).isSome := by
      refine mapOpt_isSome fun r hr => ?_
      by_cases hmem : r ∈ new
      · simp [procOld, hmem]
      · rcases r with _ | ⟨f0, rest⟩
        · exact absurd rfl (ho [] hr hmem)
        · simp [procOld, hmem]
    rcases Option.isSome_iff_exists.mp hs1 with ⟨bs1, hb1⟩
    rcases Option.isSome_iff_exists.mp hs2 with ⟨bs2, hb2⟩
    unfold compare compareLines
    rw [hb1, hb2]
    rfl

/-- Witness for claim C10: a 1-field non-status record makes compare fail,
and status-marked or 3-field records satisfy the precondition. -/
theorem claim_C10_witness :
    compare [["x"]] [] = none ∧ (compare [["Status:"]] []).isSome :=
  ⟨(claim_C10 [["x"]] []).1 (by decide),
   (claim_C10 [["Status:"]] []).2 (by decide) (by decide)⟩

/-! ### Claim C9: the report preamble -/

theorem lineList_ne_nil (cs : List Char) : lineList cs ≠ [] := by
  induction cs with
  | nil => simp [lineList]
  | cons c t ih =>
    by_cases hc : c = '\n'
    · simp [lineList, hc]
    · cases h : lineList t with
      | nil => exact absurd h ih
      | cons hd tl => simp [lineList, hc, h]

theorem lineList_append (a t : List Char) (ha : '\n' ∉ a) :
    lineList (a ++ '\n' :: t) = a :: lineList t := by
  induction a with
  | nil => simp [lineList]
  | cons c cs ih =>
    have hc : c ≠ '\n' := fun h => ha (h ▸ List.mem_cons_self c cs)
    have hcs : '\n' ∉ cs := fun h => ha (List.mem_cons_of_mem c h)
    simp [lineList, hc, List.cons_append, ih hcs]

/-- Claim C9 as stated is false: the first line of the report is
`"New positions: "` with a trailing space, not the literal
`"New positions:"`.  Shown at current = previous = empty set. -/
theorem claim_C9_counterexample :
    (compare [] []).map (fun s => (strLines s).head?) = some (some "New positions: ") ∧
    ("New positions: " : String) ≠ "New positions:" := by
  constructor
  · decide
  · decide

/-- Claim C9 (amended): every report returned by compare begins with the
line `"New positions: "` (ending in a space, since the code appends the
entry `'New positions: \n'`) followed by a blank line, before any other
content. -/
theorem claim_C9_amended : ∀ (new old : List (List String)) (s : String),
    compare new old = some s →
    (strLines s).head? = some "New positions: " ∧ (strLines s)[1]? = some "" := by
  intro new old s h
  unfold compare at h
  cases hcl : compareLines new old with
  | none => rw [hcl] at h; cases h
  | some ls =>
    rw [hcl] at h
    injection h with h
    rcases compareLines_eq hcl with ⟨bs1, bs2, h1, h2, hls⟩
    have hshape : ∃ rest, ls = "New positions: \n" :: rest := by
      rw [hls]
      by_cases he : new = old
      · rw [if_pos he]
        exact ⟨["No changes"] ++ catLists bs1 ++ catLists bs2, by simp⟩
      · rw [if_neg he]
        exact ⟨catLists bs1 ++ catLists bs2, by simp⟩
    rcases hshape with ⟨rest, hrest⟩
    subst h
    rw [hrest]
    cases rest with
    | nil => exact ⟨by decide, by decide⟩
    | cons x rest2 =>
      have hj : pyJoin "\n" ("New positions: \n" :: x :: rest2) =
          "New positions: \n" ++ "\n" ++ pyJoin "\n" (x :: rest2) := rfl
      have hd : (pyJoin "\n" ("New positions: \n" :: x :: rest2)).data =
          "New positions: ".data ++ '\n' :: '\n' :: (pyJoin "\n" (x :: rest2)).data := by
        rw [hj]
        simp [String.data_append]
      unfold strLines
      rw [hd, lineList_append _ _ (by decide)]
      constructor
      · rfl
      · simp [lineList]

/-- Witness for the amended claim C9. -/
theorem claim_C9_witness :
    (strLines "New positions: \n\nNo changes").head? = some "New positions: " ∧
    (strLines "New positions: \n\nNo changes")[1]? = some "" :=
  claim_C9_amended [] [] "New positions: \n\nNo changes" (by decide)

/-! ### Claim C5: the snapshot round trip -/

theorem strMk_data (f : String) : String.mk f.data = f := rfl

theorem run_inField (cs : List Char) (hcs : ∀ c ∈ cs, c ≠ '\t' ∧ c ≠ '\n')
    (rows : List (List String)) (cur : List String) (field : List Char) :
    List.foldl csvStep ⟨rows, cur, field, .inField⟩ cs =
      ⟨rows, cur, field ++ cs, .inField⟩ := by
  induction cs generalizing field with
  | nil => simp
  | cons c t ih =>
    have hc := hcs c (List.mem_cons_self c t)
    rw [List.foldl_cons]
    rw [show csvStep ⟨rows, cur, field, .inField⟩ c = ⟨rows, cur, field ++ [c], .inField⟩
      from by simp [csvStep, hc.1, hc.2]]
    rw [ih fun d hd => hcs d (List.mem_cons_of_mem c hd)]
    simp

theorem run_inQuote (cs : List Char) (rows : List (List String))
    (cur : List String) (field : List Char) :
    List.foldl csvStep ⟨rows, cur, field, .inQuote⟩ (escapeQuotes cs) =
      ⟨rows, cur, field ++ cs, .inQuote⟩ := by
  induction cs generalizing field with
  | nil => simp [escapeQuotes]
  | cons c t ih =>
    by_cases hc : c = '"'
    · subst hc
      rw [show escapeQuotes ('"' :: t) = '"' :: '"' :: escapeQuotes t
        from by simp [escapeQuotes]]
      rw [List.foldl_cons, List.foldl_cons]
      rw [show csvStep ⟨rows, cur, field, .inQuote⟩ '"' = ⟨rows, cur, field, .postQuote⟩
        from by simp [csvStep]]
      rw [show csvStep ⟨rows, cur, field, .postQuote⟩ '"' =
          ⟨rows, cur, field ++ ['"'], .inQuote⟩ from by simp [csvStep]]
      rw [ih]
      simp
    · rw [show escapeQuotes (c :: t) = c :: escapeQuotes t
        from by simp [escapeQuotes, hc]]
      rw [List.foldl_cons]
      rw [show csvStep ⟨rows, cur, field, .inQuote⟩ c = ⟨rows, cur, field ++ [c], .inQuote⟩
        from by simp [csvStep, hc]]
      rw [ih]
      simp

theorem encodeField_run (f : String) (hf : cleanField f)
    (rows : List (List String)) (cur : List String) (tail : List Char) :
    List.foldl csvStep ⟨rows, cur, [], .startField⟩ (encodeField f ++ tail) =
      List.foldl csvStep
        ⟨rows, cur, f.data,
          if needsQuoting f then .postQuote
          else if f.data = [] then .startField else .inField⟩ tail := by
  by_cases hq : needsQuoting f = true
  · rw [show encodeField f = '"' :: (escapeQuotes f.data ++ ['"']) from by simp [encodeField, hq]]
    rw [if_pos hq]
    rw [List.cons_append, List.foldl_cons]
    rw [show csvStep ⟨rows, cur, [], .startField⟩ '"' = ⟨rows, cur, [], .inQuote⟩
      from by simp [csvStep]]
    rw [List.append_assoc, List.singleton_append, List.foldl_append]
    rw [run_inQuote f.data rows cur []]
    rw [List.nil_append, List.foldl_cons]
    rw [show csvStep ⟨rows, cur, f.data, .inQuote⟩ '"' = ⟨rows, cur, f.data, .postQuote⟩
      from by simp [csvStep]]
  · rw [show encodeField f = f.data from by simp [encodeField, hq], if_neg hq]
    cases hd : f.data with
    | nil => simp [hd]
    | cons c cs =>
      have hclean : ∀ d ∈ f.data, d ≠ '\t' ∧ d ≠ '\n' := fun d hdm => ⟨(hf d hdm).1, (hf d hdm).2.1⟩
      rw [hd] at hclean
      have hc := hclean c (List.mem_cons_self c cs)
      have hcq : c ≠ '"' := by
        intro he
        apply hq
        simp only [needsQuoting, List.any_eq_true]
        exact ⟨c, by rw [hd]; exact List.mem_cons_self c cs, by simp [he]⟩
      rw [if_neg (by simp)]
      rw [List.cons_append, List.foldl_cons]
      rw [show csvStep ⟨rows, cur, [], .startField⟩ c = ⟨rows, cur, [c], .inField⟩
        from by simp [csvStep, hc.1, hc.2, hcq]]
      rw [List.foldl_append]
      rw [run_inField cs (fun d hdm => hclean d (List.mem_cons_of_mem c hdm)) rows cur [c]]
      simp

theorem fields_run (fs : List String) (hne : fs ≠ [])
    (hclean : ∀ f ∈ fs, cleanField f) (rows : List (List String))
    (cur : List String) (rest : List Char) :
    List.foldl csvStep ⟨rows, cur, [], .startField⟩ (joinFields fs ++ '\n' :: rest) =
      List.foldl csvStep ⟨rows ++ [cur ++ fs], [], [], .startRecord⟩ rest := by
  induction fs generalizing cur with
  | nil => exact absurd rfl hne
  | cons f gs ih =>
    have hfc := hclean f (List.mem_cons_self f gs)
    cases gs with
    | nil =>
      rw [show joinFields [f] = encodeField f from rfl]
      rw [encodeField_run f hfc rows cur ('\n' :: rest)]
      by_cases hq : needsQuoting f = true
      · rw [if_pos hq, List.foldl_cons]
        rw [show csvStep ⟨rows, cur, f.data, .postQuote⟩ '\n' =
            ⟨rows ++ [cur ++ [String.mk f.data]], [], [], .startRecord⟩
          from by simp [csvStep]]
      · rw [if_neg hq]
        cases hd : f.data with
        | nil =>
          have hf0 : f = "" := by
            have h2 := congrArg String.mk hd
            rw [strMk_data] at h2
            exact h2
          rw [if_pos rfl, List.foldl_cons]
          rw [show csvStep ⟨rows, cur, [], .startField⟩ '\n' =
              ⟨rows ++ [cur ++ [""]], [], [], .startRecord⟩ from by simp [csvStep]]
          rw [hf0]
        | cons c cs =>
          rw [if_neg (by simp [hd]), List.foldl_cons]
          rw [show csvStep ⟨rows, cur, c :: cs, .inField⟩ '\n' =
              ⟨rows ++ [cur ++ [String.mk (c :: cs)]], [], [], .startRecord⟩
            from by simp [csvStep]]
          rw [← hd]
    | cons g gs2 =>
      rw [show joinFields (f :: g :: gs2) = encodeField f ++ '\t' :: joinFields (g :: gs2)
        from rfl]
      rw [List.append_assoc, List.cons_append]
      rw [encodeField_run f hfc rows cur ('\t' :: (joinFields (g :: gs2) ++ '\n' :: rest))]
      have hstep : ∀ md : CsvMode,
          (md = .postQuote ∨ md = .inField) →
          csvStep ⟨rows, cur, f.data, md⟩ '\t' =
            ⟨rows, cur ++ [f], [], .startField⟩ := by
        intro md hmd
        rcases hmd with h | h <;> subst h <;>
          simp [csvStep, strMk_data]
      have hnext :
          List.foldl csvStep
            ⟨rows, cur, f.data,
              if needsQuoting f then .postQuote
              else if f.data = [] then .startField else .inField⟩
            ('\t' :: (joinFields (g :: gs2) ++ '\n' :: rest)) =
          List.foldl csvStep ⟨rows, cur ++ [f], [], .startField⟩
            (joinFields (g :: gs2) ++ '\n' :: rest) := by
        by_cases hq : needsQuoting f = true
        · rw [if_pos hq, List.foldl_cons, hstep _ (Or.inl rfl)]
        · rw [if_neg hq]
          cases hd : f.data with
          | nil =>
            have hf0 : f = "" := by
              have h2 := congrArg String.mk hd
              rw [strMk_data] at h2
              exact h2
            rw [if_pos rfl, List.foldl_cons]
            rw [show csvStep ⟨rows, cur, [], .startField⟩ '\t' =
                ⟨rows, cur ++ [""], [], .startField⟩ from by simp [csvStep]]
            rw [hf0]
          | cons c cs =>
            rw [if_neg (by simp [hd]), List.foldl_cons]
            rw [← hd, hstep _ (Or.inr rfl)]
      rw [hnext]
      rw [ih (by simp) (fun x hx => hclean x (List.mem_cons_of_mem f hx)) (cur ++ [f])]
      simp

theorem start_bridge (c : Char) (hc : c ≠ '\n') (rows : List (List String)) :
    csvStep ⟨rows, [], [], .startRecord⟩ c = csvStep ⟨rows, [], [], .startField⟩ c := by
  simp [csvStep, hc]

theorem row_run (r : List String) (hr : ∀ f ∈ r, cleanField f)
    (rows : List (List String)) (rest : List Char) :
    List.foldl csvStep ⟨rows, [], [], .startRecord⟩ (encodeRow r ++ '\n' :: rest) =
      List.foldl csvStep ⟨rows ++ [r], [], [], .startRecord⟩ rest := by
  by_cases hsingle : r = [""]
  · subst hsingle
    rw [show encodeRow [""] = ['"', '"'] from rfl]
    simp only [List.cons_append, List.nil_append, List.foldl_cons]
    rw [show csvStep ⟨rows, [], [], .startRecord⟩ '"' = ⟨rows, [], [], .inQuote⟩
      from by simp [csvStep]]
    rw [show csvStep ⟨rows, [], [], .inQuote⟩ '"' = ⟨rows, [], [], .postQuote⟩
      from by simp [csvStep]]
    rw [show csvStep ⟨rows, [], [], .postQuote⟩ '\n' = ⟨rows ++ [[""]], [], [], .startRecord⟩
      from by simp [csvStep]]
  · cases r with
    | nil =>
      rw [show encodeRow [] = [] from by simp [encodeRow, joinFields]]
      simp only [List.nil_append, List.foldl_cons]
      rw [show csvStep ⟨rows, [], [], .startRecord⟩ '\n' = ⟨rows ++ [[]], [], [], .startRecord⟩
        from by simp [csvStep]]
    | cons f gs =>
      have henc : encodeRow (f :: gs) = joinFields (f :: gs) := by
        simp [encodeRow, hsingle]
      have hhead : ∃ c cs, joinFields (f :: gs) = c :: cs ∧ c ≠ '\n' := by
        have hfc := hr f (List.mem_cons_self f gs)
        by_cases hq : needsQuoting f = true
        · have he : encodeField f = '"' :: (escapeQuotes f.data ++ ['"']) := by
            simp [encodeField, hq]
          cases gs with
          | nil =>
            refine ⟨'"', escapeQuotes f.data ++ ['"'], ?_, by decide⟩
            rw [show joinFields [f] = encodeField f from rfl, he]
          | cons g gs2 =>
            refine ⟨'"', (escapeQuotes f.data ++ ['"']) ++ '\t' :: joinFields (g :: gs2),
              ?_, by decide⟩
            rw [show joinFields (f :: g :: gs2) =
                encodeField f ++ '\t' :: joinFields (g :: gs2) from rfl, he]
            rfl
        · have he : encodeField f = f.data := by simp [encodeField, hq]
          cases hd : f.data with
          | nil =>
            have hf0 : f = "" := by
              have h2 := congrArg String.mk hd
              rw [strMk_data] at h2
              exact h2
            cases gs with
            | nil => exact absurd (by rw [hf0]) hsingle
            | cons g gs2 =>
              refine ⟨'\t', joinFields (g :: gs2), ?_, by decide⟩
              rw [show joinFields (f :: g :: gs2) =
                  encodeField f ++ '\t' :: joinFields (g :: gs2) from rfl, he, hd]
              rfl
          | cons c cs =>
            have hc : c ≠ '\n' := ((hfc c (by rw [hd]; exact List.mem_cons_self c cs)).2.1)
            cases gs with
            | nil => exact ⟨c, cs, by rw [show joinFields [f] = encodeField f from rfl, he, hd],
                hc⟩
            | cons g gs2 =>
              refine ⟨c, cs ++ '\t' :: joinFields (g :: gs2), ?_, hc⟩
              rw [show joinFields (f :: g :: gs2) =
                  encodeField f ++ '\t' :: joinFields (g :: gs2) from rfl, he, hd]
              rfl
      rcases hhead with ⟨c, cs, hjf, hc⟩
      rw [henc, hjf]
      rw [List.cons_append, List.foldl_cons, start_bridge c hc rows]
      rw [← List.foldl_cons, ← List.cons_append, ← hjf]
      have := fields_run (f :: gs) (by simp) hr rows [] rest
      simpa using this

theorem rows_run (X : List (List String))
    (hX : ∀ r ∈ X, ∀ f ∈ r, cleanField f) (rows : List (List String)) :
    List.foldl csvStep ⟨rows, [], [], .startRecord⟩ (writeRows X) =
      ⟨rows ++ X, [], [], .startRecord⟩ := by
  induction X generalizing rows with
  | nil => simp [writeRows]
  | cons r rs ih =>
    rw [show writeRows (r :: rs) = encodeRow r ++ '\n' :: writeRows rs from rfl]
    rw [row_run r (hX r (List.mem_cons_self r rs)) rows (writeRows rs)]
    rw [ih (fun x hx => hX x (List.mem_cons_of_mem r hx)) (rows ++ [r])]
    simp

/-- Claim C5: for every record set whose fields contain no tab and no
line-terminator character (LF or CR), writing with write_csv and reading
back with read_csv is the identity. -/
theorem claim_C5 : ∀ X : List (List String),
    (∀ r ∈ X, ∀ f ∈ r, cleanField f) → read_csv (write_csv X) = X := by
  intro X hX
  show csvFinish (List.foldl csvStep ⟨[], [], [], .startRecord⟩ (writeRows X)) = X
  rw [rows_run X hX []]
  simp [csvFinish]

/-- Witness for claim C5: a record set exercising quoting, an empty record,
a lone empty field and an empty leading field. -/
theorem claim_C5_witness :
    read_csv (write_csv [["a", "q\"x"], [], [""], ["", "d"]]) =
      [["a", "q\"x"], [], [""], ["", "d"]] :=
  claim_C5 [["a", "q\"x"], [], [""], ["", "d"]] (by decide)

/-! ### Claim C7: the extracted record set -/

/-- Claim C7: the record set assembled by a run has the header record first,
then exactly one record per hyperlink whose text contains the case-sensitive
substring `"Intern"`, in document order, each with its three fields
whitespace-trimmed, and the status record appended last.  The hypothesis
states that every selected link has a span under its parent (otherwise the
extraction raises and no record set is produced at all). -/
theorem claim_C7 : ∀ (url : String) (links : List LinkElem) (cells : List String),
    (∀ l ∈ links.filter (fun l => pyInStr "Intern" l.text), l.parentSpanText.isSome) →
    buildNew url links cells = some
      (["position", "location", "link"] ::
        ((links.filter fun l => pyInStr "Intern" l.text).map fun l =>
          [pyStrip l.text, pyStrip (l.parentSpanText.getD ""),
           pyStrip (dirname url ++ l.href)])
        ++ [scrape_unops_record cells]) ∧
    (∀ rs, buildNew url links cells = some rs →
      rs.head? = some ["position", "location", "link"] ∧
      rs.getLast? = some (scrape_unops_record cells)) := by
  intro url links cells hspan
  have hmap : mapOpt (extractInfo (dirname url))
      (links.filter fun l => pyInStr "Intern" l.text) =
      some ((links.filter fun l => pyInStr "Intern" l.text).map fun l =>
        [pyStrip l.text, pyStrip (l.parentSpanText.getD ""),
         pyStrip (dirname url ++ l.href)]) := by
    refine mapOpt_eq_map fun l hl => ?_
    have hs := hspan l hl
    cases hsp : l.parentSpanText with
    | none => rw [hsp] at hs; simp at hs
    | some sp => simp [extractInfo, hsp]
  have hbn : buildNew url links cells = some
      (["position", "location", "link"] ::
        ((links.filter fun l => pyInStr "Intern" l.text).map fun l =>
          [pyStrip l.text, pyStrip (l.parentSpanText.getD ""),
           pyStrip (dirname url ++ l.href)])
        ++ [scrape_unops_record cells]) := by
    simp [buildNew, get_positions, hmap]
  refine ⟨hbn, ?_⟩
  intro rs hrs
  rw [hbn] at hrs
  injection hrs with hrs
  subst hrs
  refine ⟨rfl, ?_⟩
  exact List.getLast?_concat
    (["position", "location", "link"] ::
      ((links.filter fun l => pyInStr "Intern" l.text).map fun l =>
        [pyStrip l.text, pyStrip (l.parentSpanText.getD ""),
         pyStrip (dirname url ++ l.href)]))

/-- Witness for claim C7 at a page with one matching link. -/
theorem claim_C7_witness :
    buildNew "https://a/b" [⟨" Software Intern ", some " Chicago ", "/jobs/1"⟩]
      ["Under Review."] =
      some [["position", "location", "link"],
            ["Software Intern", "Chicago", "https://a/jobs/1"],
            ["Status:", "UnderReview"]] := by
  have h := (claim_C7 "https://a/b" [⟨" Software Intern ", some " Chicago ", "/jobs/1"⟩]
    ["Under Review."] (by decide)).1
  rw [h]
  decide

/-! ### Claim C6: failure atomicity of the run -/

theorem runScript_cases (env : Env) (st : ScriptState) :
    (∃ e, runScript env st = (.error e, st)) ∨
    (∃ msg sid new, env.send msg = .ok sid ∧
      runScript env st = (.ok sid, ⟨some (write_csv new), st.sent ++ [msg]⟩)) := by
  rcases henv : env.fetched with e | links
  · exact Or.inl ⟨e, by simp [runScript, henv]⟩
  · rcases hgp : get_positions fetch_url links with _ | positions
    · exact Or.inl ⟨.extract, by simp [runScript, henv, hgp]⟩
    · rcases hpc : env.portalCells with e | cells
      · exact Or.inl ⟨e, by simp [runScript, henv, hgp, hpc]⟩
      · rcases hsn : st.snapshot with _ | content
        · exact Or.inl ⟨.missingFile, by simp [runScript, henv, hgp, hpc, hsn]⟩
        · rcases hcmp : compare (positions ++ [scrape_unops_record cells])
              (read_csv content) with _ | msg
          · exact Or.inl ⟨.indexError, by simp [runScript, henv, hgp, hpc, hsn, hcmp]⟩
          · rcases hsend : env.send msg with e | sid
            · exact Or.inl ⟨e, by simp [runScript, henv, hgp, hpc, hsn, hcmp, hsend]⟩
            · exact Or.inr ⟨msg, sid, positions ++ [scrape_unops_record cells], hsend,
                by simp [runScript, henv, hgp, hpc, hsn, hcmp, hsend]⟩

/-- Claim C6: if any step before the final snapshot write fails, the run
aborts with the whole state (in particular the snapshot file) unchanged;
and the state changes only when every step succeeded, in which case the
notification was dispatched (the sent message is recorded) and the snapshot
was overwritten, the write being the last operation. -/
theorem claim_C6 : ∀ (env : Env) (st : ScriptState),
    (∀ e, (runScript env st).1 = .error e → (runScript env st).2 = st) ∧
    ((runScript env st).2 ≠ st →
      ∃ msg sid new, (runScript env st).1 = .ok sid ∧ env.send msg = .ok sid ∧
        (runScript env st).2.sent = st.sent ++ [msg] ∧
        (runScript env st).2.snapshot = some (write_csv new)) := by
  intro env st
  rcases runScript_cases env st with ⟨e, he⟩ | ⟨msg, sid, new, hsend, hr⟩
  · constructor
    · intro e2 h2
      rw [he]
    · intro hne
      exact absurd (by rw [he]) hne
  · constructor
    · intro e2 h2
      rw [hr] at h2
      cases h2
    · intro hne
      exact ⟨msg, sid, new, by rw [hr], hsend, by rw [hr], by rw [hr]⟩

/-- Witness for claim C6: a run failing at the fetch leaves the state
intact, and a fully successful run sends the report and overwrites the
snapshot. -/
theorem claim_C6_witness :
    (runScript ⟨.error .network, .error .network, fun _ => .error .sendFail⟩
        ⟨some "", []⟩).2 = ⟨some "", []⟩ ∧
    (∃ msg sid new,
      (runScript ⟨.ok [], .ok [], fun _ => .ok "SM1"⟩ ⟨some "", []⟩).1 = .ok sid ∧
      (⟨.ok [], .ok [], fun _ => .ok "SM1"⟩ : Env).send msg = .ok sid ∧
      (runScript ⟨.ok [], .ok [], fun _ => .ok "SM1"⟩ ⟨some "", []⟩).2.sent =
        [] ++ [msg] ∧
      (runScript ⟨.ok [], .ok [], fun _ => .ok "SM1"⟩ ⟨some "", []⟩).2.snapshot =
        some (write_csv new)) :=
  ⟨(claim_C6 ⟨.error .network, .error .network, fun _ => .error .sendFail⟩
      ⟨some "", []⟩).1 ScrapeErr.network rfl,
   (claim_C6 ⟨.ok [], .ok [], fun _ => .ok "SM1"⟩ ⟨some "", []⟩).2 (by decide)⟩

end JobScraper
